import Mathlib

/-!
Verification of the color-quantization pipeline of FamilyDashboard
(`src/familydashboard/components/dithering.py`, class `SpectraE6Dithering`).

Embedding conventions:
* Pixels are RGB triples of rationals (the source uses `float32`; the
  algorithm's arithmetic — thresholds, error fractions `k/16`, palette
  values — is modelled exactly over `ℚ`).
* The source compares Euclidean distances `sqrt (Σ (cᵢ - pᵢ)²)`.  Since
  `sqrt` is monotone and nonnegative, every comparison is embedded via the
  squared distance: `sqrt d2 ≤ tol ↔ 0 ≤ tol ∧ d2 ≤ tol * tol`, and
  `sqrt d2 < sqrt d2' ↔ d2 < d2'`.
* 2-D numpy arrays become total functions `ℕ → ℕ → _` updated pointwise;
  the dithering loop `for y in range(height): for x in range(width)` becomes
  a left fold over the row-major coordinate list.
* `dithered[y, x] = new_pixel.astype(np.uint8)`: every value written is a
  palette member whose channels are exactly 0 or 255, on which the
  float32→uint8 conversion is the identity, so the write stores `new_pixel`.
-/

namespace FamilyDashboard

/-- An RGB pixel; each channel a rational (source: 3-element float32 vector). -/
structure RGB where
  r : ℚ
  g : ℚ
  b : ℚ
deriving DecidableEq

instance instAddRGB : Add RGB := ⟨fun p q => ⟨p.r + q.r, p.g + q.g, p.b + q.b⟩⟩

instance instSubRGB : Sub RGB := ⟨fun p q => ⟨p.r - q.r, p.g - q.g, p.b - q.b⟩⟩

/-- Scalar multiple of a pixel, `error * (k/16)` in the source. -/
def RGB.smul (a : ℚ) (p : RGB) : RGB := ⟨a * p.r, a * p.g, a * p.b⟩

/-- Squared Euclidean distance `np.sum((c - p) ** 2)`; the source takes
`np.sqrt` of this before comparing, which monotonicity lets us elide. -/
def dist2 (c p : RGB) : ℚ :=
  (c.r - p.r) ^ 2 + (c.g - p.g) ^ 2 + (c.b - p.b) ^ 2

def colorBlack : RGB := ⟨0, 0, 0⟩

def colorWhite : RGB := ⟨255, 255, 255⟩

def colorRed : RGB := ⟨255, 0, 0⟩

def colorYellow : RGB := ⟨255, 255, 0⟩

def colorGreen : RGB := ⟨0, 255, 0⟩

def colorBlue : RGB := ⟨0, 0, 255⟩

/-- The `E6_PALETTE` values in declaration order (black, white, red, yellow,
green, blue); declaration order defines the palette index. -/
def E6_PALETTE : List RGB :=
  [colorBlack, colorWhite, colorRed, colorYellow, colorGreen, colorBlue]

/-- Palette names, `PALETTE_NAMES = list(E6_PALETTE.keys())`. -/
def PALETTE_NAMES : List String :=
  ["black", "white", "red", "yellow", "green", "blue"]

/-- Constructor configuration of `SpectraE6Dithering` together with the class
constants `BLACK_THRESHOLD` / `WHITE_THRESHOLD` (the `OptimizedE6Dithering`
subclass overrides the two thresholds, so they are part of the state). -/
structure DitherConfig where
  preserve_bw : Bool
  bw_tolerance : ℚ
  black_threshold : ℚ
  white_threshold : ℚ

/-- Defaults `SpectraE6Dithering(preserve_bw=True, bw_tolerance=10.0)` with
`BLACK_THRESHOLD = 30`, `WHITE_THRESHOLD = 225`. -/
def defaultConfig : DitherConfig := ⟨true, 10, 30, 225⟩

/-- Loop body of `is_exact_palette_match`: scan the remaining palette
entries, carrying the index of the head; return the first entry whose
Euclidean distance to `pixel` is ≤ `tol` (`0 ≤ tol ∧ dist2 ≤ tol²`). -/
def matchAux (tol : ℚ) (pixel : RGB) : List RGB → ℕ → Option (ℕ × RGB)
  | [], _ => none
  | c :: cs, i =>
      if 0 ≤ tol ∧ dist2 c pixel ≤ tol * tol then some (i, c)
      else matchAux tol pixel cs (i + 1)

/-- Embedding of `is_exact_palette_match(pixel, tolerance)`: first palette entry within
`tolerance` of `pixel`, with its index, else `none`. -/
def is_exact_palette_match (tol : ℚ) (pixel : RGB) : Option (ℕ × RGB) :=
  matchAux tol pixel E6_PALETTE 0

/-- Embedding of `should_preserve_pixel(pixel)`: `some c` when the pixel is preserved as
color `c`, `none` otherwise.  Order: preservation disabled → near-black →
near-white → exact palette match. -/
def should_preserve_pixel (cfg : DitherConfig) (pixel : RGB) : Option RGB :=
  if ¬ cfg.preserve_bw then none
  else if pixel.r ≤ cfg.black_threshold ∧ pixel.g ≤ cfg.black_threshold ∧
      pixel.b ≤ cfg.black_threshold then some colorBlack
  else if cfg.white_threshold ≤ pixel.r ∧ cfg.white_threshold ≤ pixel.g ∧
      cfg.white_threshold ≤ pixel.b then some colorWhite
  else
    match is_exact_palette_match cfg.bw_tolerance pixel with
    | some ic => some ic.2
    | none => none

/-- Loop underlying `np.argmin` on the distance vector: scan the remaining
colors keeping the current best `(index, distance², color)`; a later color
replaces the best only on a strictly smaller distance, so the first minimum
wins. -/
def find_nearest_aux (pixel : RGB) :
    List RGB → ℕ → ℕ → ℚ → RGB → ℕ × RGB
  | [], _, bi, _, bc => (bi, bc)
  | c :: cs, i, bi, bd, bc =>
      if dist2 c pixel < bd then find_nearest_aux pixel cs (i + 1) i (dist2 c pixel) c
      else find_nearest_aux pixel cs (i + 1) bi bd bc

/-- Embedding of `find_nearest_palette_color(pixel, palette)`: index and RGB of the
nearest palette color (first minimum, per `np.argmin`).  The `[]` case is
unreachable for the 6-entry palette (numpy raises on an empty argmin). -/
def find_nearest_palette_color (pixel : RGB) (palette : List RGB) : ℕ × RGB :=
  match palette with
  | [] => (0, pixel)
  | c :: cs => find_nearest_aux pixel cs 1 0 (dist2 c pixel) c

/-- Loop of the preserved-color index search (`for idx, pc in
enumerate(self.palette_rgb): if np.allclose(pc, new_pixel, rtol=0, atol=1):
palette_idx = idx; break`): first entry with every channel within absolute
tolerance 1. -/
def preservedIndexAux (c : RGB) : List RGB → ℕ → Option ℕ
  | [], _ => none
  | pc :: rest, i =>
      if |pc.r - c.r| ≤ 1 ∧ |pc.g - c.g| ≤ 1 ∧ |pc.b - c.b| ≤ 1 then some i
      else preservedIndexAux c rest (i + 1)

/-- Index recorded for a preserved color, defaulting to 0 when no palette
entry matches within tolerance (`palette_idx = 0` before the loop). -/
def preservedIndex (c : RGB) : ℕ :=
  (preservedIndexAux c E6_PALETTE 0).getD 0

/-- Pointwise update of a 2-D grid at row `y`, column `x`. -/
def upd {α : Type} (g : ℕ → ℕ → α) (y x : ℕ) (v : α) : ℕ → ℕ → α :=
  fun y' x' => if y' = y ∧ x' = x then v else g y' x'

/-- Pointwise increment `img_array[y, x] += e`. -/
def addErr (g : ℕ → ℕ → RGB) (y x : ℕ) (e : RGB) : ℕ → ℕ → RGB :=
  upd g y x (g y x + e)

/-- The error-distribution block: add `error * 7/16` to the right neighbor,
and `5/16`, `3/16`, `1/16` to the below / below-left / below-right
neighbors, each guarded by the same bounds tests as the source
(`x < width - 1`, `y < height - 1`, `x > 0`). -/
def diffuseError (w h : ℕ) (g : ℕ → ℕ → RGB) (y x : ℕ) (e : RGB) :
    ℕ → ℕ → RGB :=
  let g1 := if x + 1 < w then addErr g y (x + 1) (RGB.smul (7 / 16) e) else g
  if y + 1 < h then
    let g2 := addErr g1 (y + 1) x (RGB.smul (5 / 16) e)
    let g3 := if 0 < x then addErr g2 (y + 1) (x - 1) (RGB.smul (3 / 16) e) else g2
    if x + 1 < w then addErr g3 (y + 1) (x + 1) (RGB.smul (1 / 16) e) else g3
  else g1

/-- State threaded through the pixel loop: the working buffer `img_array`
(accumulating diffused error), the output raster `dithered`, and the
`palette_indices` map. -/
structure DitherState where
  work : ℕ → ℕ → RGB
  out : ℕ → ℕ → RGB
  idx : ℕ → ℕ → ℕ

/-- Body of the per-pixel loop of `floyd_steinberg_dither`: decide
preservation on the ORIGINAL pixel `orig y x`; a preserved pixel writes its
preserved color and index and diffuses nothing (error is the zero vector and
the distribution block is skipped, leaving `work` untouched); otherwise the
nearest palette color to the working value is written and the quantization
error `old - new` is diffused. -/
def ditherStep (cfg : DitherConfig) (orig : ℕ → ℕ → RGB) (w h : ℕ)
    (st : DitherState) (y x : ℕ) : DitherState :=
  match should_preserve_pixel cfg (orig y x) with
  | some pc =>
      { work := st.work
        out := upd st.out y x pc
        idx := upd st.idx y x (preservedIndex pc) }
  | none =>
      let old := st.work y x
      let res := find_nearest_palette_color old E6_PALETTE
      { work := diffuseError w h st.work y x (old - res.2)
        out := upd st.out y x res.2
        idx := upd st.idx y x res.1 }

/-- An input raster: width, height, and the pixel at row `y`, column `x`. -/
structure ImageQ where
  width : ℕ
  height : ℕ
  pix : ℕ → ℕ → RGB

/-- Row-major coordinate list `[(0,0), (0,1), …, (h-1, w-1)]` of the nested
`for y … for x …` loops. -/
def coords (h w : ℕ) : List (ℕ × ℕ) :=
  (List.range h).flatMap (fun y => (List.range w).map (fun x => (y, x)))

/-- Embedding of `floyd_steinberg_dither(image)`: returns `(dithered, palette_indices)`.
Both outputs start as `np.zeros` (pixel `(0,0,0)`, index `0`) and are filled
by the row-major fold of `ditherStep`. -/
def floyd_steinberg_dither (cfg : DitherConfig) (img : ImageQ) :
    (ℕ → ℕ → RGB) × (ℕ → ℕ → ℕ) :=
  let init : DitherState :=
    ⟨img.pix, fun _ _ => ⟨0, 0, 0⟩, fun _ _ => 0⟩
  let fin := (coords img.height img.width).foldl
    (fun st yx => ditherStep cfg img.pix img.width img.height st yx.1 yx.2) init
  (fin.out, fin.idx)

/-- Per-channel closeness test of `analyze_color_distribution`:
`np.all(np.abs(img_array - color_rgb) < 2)`. -/
def nearColor (p c : RGB) : Bool :=
  decide (|p.r - c.r| < 2) && decide (|p.g - c.g| < 2) && decide (|p.b - c.b| < 2)

/-- Pixel count of one palette color in a raster (`np.sum(mask)`). -/
def countColor (outg : ℕ → ℕ → RGB) (h w : ℕ) (c : RGB) : ℕ :=
  ((coords h w).filter (fun yx => nearColor (outg yx.1 yx.2) c)).length

/-- Embedding of `analyze_color_distribution(image)`: dither the image internally, then
for each palette color report `(name, count, percentage)` where
`percentage = count / total_pixels * 100`. -/
def analyze_color_distribution (cfg : DitherConfig) (img : ImageQ) :
    List (String × ℕ × ℚ) :=
  let outg := (floyd_steinberg_dither cfg img).1
  (PALETTE_NAMES.zip E6_PALETTE).map (fun nc =>
    let cnt := countColor outg img.height img.width nc.2
    (nc.1, cnt, (cnt : ℚ) / ((img.height : ℚ) * (img.width : ℚ)) * 100))

/-- Spec-side comparison count for the analyzer claims: the number of pixels
of the raster that are EXACTLY equal to palette color `c` (the spec's
"per-palette-color pixel counts of the raster"). -/
def countPixelsEqual (outg : ℕ → ℕ → RGB) (h w : ℕ) (c : RGB) : ℕ :=
  ((coords h w).filter (fun yx => decide (outg yx.1 yx.2 = c))).length

/-! ### Concrete test rasters used as witnesses -/

/-- A 1×1 mid-gray raster `[(128,128,128)]` (spec §8 end-to-end scenario). -/
def grayImage : ImageQ := ⟨1, 1, fun _ _ => ⟨128, 128, 128⟩⟩

/-- A 1×1 near-black raster (all channels 10, below the black threshold). -/
def darkImage : ImageQ := ⟨1, 1, fun _ _ => ⟨10, 10, 10⟩⟩

/-- A 1×1 near-white raster (all channels 250, above the white threshold). -/
def brightImage : ImageQ := ⟨1, 1, fun _ _ => ⟨250, 250, 250⟩⟩

/-- A constant raster of a mid-tone color that no rule preserves. -/
def c3orig : ℕ → ℕ → RGB := fun _ _ => ⟨100, 40, 200⟩

/-- Loop state over `c3orig` before any pixel has been processed. -/
def c3state : DitherState := ⟨c3orig, fun _ _ => ⟨0, 0, 0⟩, fun _ _ => 0⟩

/-- Quantization error of `(100,40,200)` against its nearest palette color
blue `(0,0,255)`. -/
def c3err : RGB := ⟨100, 40, -55⟩

/-- A 3×3 raster of the mid-tone color, for interior-coordinate witnesses. -/
def midImage : ImageQ := ⟨3, 3, c3orig⟩

/-! ## Helper lemmas -/

theorem RGB.add_def (p q : RGB) : p + q = ⟨p.r + q.r, p.g + q.g, p.b + q.b⟩ := rfl

theorem RGB.sub_def (p q : RGB) : p - q = ⟨p.r - q.r, p.g - q.g, p.b - q.b⟩ := rfl

theorem upd_self {α : Type} (g : ℕ → ℕ → α) (y x : ℕ) (v : α) :
    upd g y x v y x = v := by
  simp [upd]

theorem upd_ne {α : Type} (g : ℕ → ℕ → α) (y x : ℕ) (v : α) (y' x' : ℕ)
    (hne : ¬ (y' = y ∧ x' = x)) : upd g y x v y' x' = g y' x' := by
  simp only [upd, if_neg hne]

theorem addErr_self (g : ℕ → ℕ → RGB) (y x : ℕ) (e : RGB) :
    addErr g y x e y x = g y x + e := by
  simp [addErr, upd]

theorem addErr_ne (g : ℕ → ℕ → RGB) (y x : ℕ) (e : RGB) (y' x' : ℕ)
    (hne : ¬ (y' = y ∧ x' = x)) : addErr g y x e y' x' = g y' x' := by
  simp only [addErr, upd, if_neg hne]

theorem mem_coords (h w y x : ℕ) : (y, x) ∈ coords h w ↔ y < h ∧ x < w := by
  simp [coords, List.mem_flatMap, List.mem_map, List.mem_range]

/-- `matchAux` only returns colors from the list it scans. -/
theorem matchAux_mem (tol : ℚ) (p : RGB) :
    ∀ (l : List RGB) (i : ℕ) (jc : ℕ × RGB),
      matchAux tol p l i = some jc → jc.2 ∈ l := by
  intro l
  induction l with
  | nil => intro i jc hm; simp [matchAux] at hm
  | cons c cs ih =>
      intro i jc hm
      by_cases hc : 0 ≤ tol ∧ dist2 c p ≤ tol * tol
      · simp only [matchAux, if_pos hc, Option.some.injEq] at hm
        subst hm
        exact List.mem_cons_self c cs
      · simp only [matchAux, if_neg hc] at hm
        exact List.mem_cons_of_mem c (ih (i + 1) jc hm)

/-- `matchAux` returns `none` when no scanned color is within tolerance. -/
theorem matchAux_eq_none (tol : ℚ) (p : RGB) :
    ∀ (l : List RGB) (i : ℕ),
      (∀ c ∈ l, ¬ (0 ≤ tol ∧ dist2 c p ≤ tol * tol)) →
      matchAux tol p l i = none := by
  intro l
  induction l with
  | nil => intro i _; rfl
  | cons c cs ih =>
      intro i hno
      have hc := hno c (List.mem_cons_self c cs)
      simp only [matchAux, if_neg hc]
      exact ih (i + 1) (fun d hd => hno d (List.mem_cons_of_mem c hd))

/-- `matchAux` returns the FIRST in-tolerance color, with its absolute
palette index. -/
theorem matchAux_first (tol : ℚ) (p : RGB) :
    ∀ (l : List RGB) (i j : ℕ) (c : RGB),
      l.get? j = some c →
      (0 ≤ tol ∧ dist2 c p ≤ tol * tol) →
      (∀ k c', k < j → l.get? k = some c' →
        ¬ (0 ≤ tol ∧ dist2 c' p ≤ tol * tol)) →
      matchAux tol p l i = some (i + j, c) := by
  intro l
  induction l with
  | nil => intro i j c hg _ _; simp at hg
  | cons a tl ih =>
      intro i j c hg hc hfirst
      cases j with
      | zero =>
          simp only [List.get?] at hg
          injection hg with hg
          subst hg
          simp only [matchAux, if_pos hc, Nat.add_zero]
      | succ j' =>
          have ha : ¬ (0 ≤ tol ∧ dist2 a p ≤ tol * tol) := by
            exact hfirst 0 a (Nat.succ_pos j') rfl
          simp only [List.get?] at hg
          simp only [matchAux, if_neg ha]
          have := ih (i + 1) j' c hg hc
            (fun k c' hk hgk => hfirst (k + 1) c' (Nat.succ_lt_succ hk) hgk)
          rw [this]
          have harith : i + 1 + j' = i + (j' + 1) := by omega
          rw [harith]

/-- Any color returned by `should_preserve_pixel` is a palette member. -/
theorem preserve_mem (cfg : DitherConfig) (q pc : RGB)
    (hp : should_preserve_pixel cfg q = some pc) : pc ∈ E6_PALETTE := by
  unfold should_preserve_pixel at hp
  by_cases h1 : ¬ cfg.preserve_bw
  · rw [if_pos h1] at hp; cases hp
  · rw [if_neg h1] at hp
    by_cases h2 : q.r ≤ cfg.black_threshold ∧ q.g ≤ cfg.black_threshold ∧
        q.b ≤ cfg.black_threshold
    · rw [if_pos h2] at hp
      injection hp with hp
      subst hp
      simp [E6_PALETTE]
    · rw [if_neg h2] at hp
      by_cases h3 : cfg.white_threshold ≤ q.r ∧ cfg.white_threshold ≤ q.g ∧
          cfg.white_threshold ≤ q.b
      · rw [if_pos h3] at hp
        injection hp with hp
        subst hp
        simp [E6_PALETTE]
      · rw [if_neg h3] at hp
        cases hm : is_exact_palette_match cfg.bw_tolerance q with
        | none => rw [hm] at hp; cases hp
        | some ic =>
            rw [hm] at hp
            injection hp with hp
            subst hp
            exact matchAux_mem cfg.bw_tolerance q E6_PALETTE 0 ic hm

/-- The index search for a preserved palette color recovers exactly that
color's palette slot (the `palette_idx = 0` fallback is never the recorded
answer for a different color). -/
theorem preservedIndex_get (pc : RGB) (hm : pc ∈ E6_PALETTE) :
    E6_PALETTE.get? (preservedIndex pc) = some pc := by
  simp only [E6_PALETTE, List.mem_cons, List.not_mem_nil, or_false] at hm
  rcases hm with h | h | h | h | h | h <;> subst h
  · have ha : preservedIndexAux colorBlack E6_PALETTE 0 = some 0 := by
      norm_num [preservedIndexAux, E6_PALETTE, colorBlack, colorWhite,
        colorRed, colorYellow, colorGreen, colorBlue]
    simp only [preservedIndex, ha, Option.getD]
    rfl
  · have ha : preservedIndexAux colorWhite E6_PALETTE 0 = some 1 := by
      norm_num [preservedIndexAux, E6_PALETTE, colorBlack, colorWhite,
        colorRed, colorYellow, colorGreen, colorBlue]
    simp only [preservedIndex, ha, Option.getD]
    rfl
  · have ha : preservedIndexAux colorRed E6_PALETTE 0 = some 2 := by
      norm_num [preservedIndexAux, E6_PALETTE, colorBlack, colorWhite,
        colorRed, colorYellow, colorGreen, colorBlue]
    simp only [preservedIndex, ha, Option.getD]
    rfl
  · have ha : preservedIndexAux colorYellow E6_PALETTE 0 = some 3 := by
      norm_num [preservedIndexAux, E6_PALETTE, colorBlack, colorWhite,
        colorRed, colorYellow, colorGreen, colorBlue]
    simp only [preservedIndex, ha, Option.getD]
    rfl
  · have ha : preservedIndexAux colorGreen E6_PALETTE 0 = some 4 := by
      norm_num [preservedIndexAux, E6_PALETTE, colorBlack, colorWhite,
        colorRed, colorYellow, colorGreen, colorBlue]
    simp only [preservedIndex, ha, Option.getD]
    rfl
  · have ha : preservedIndexAux colorBlue E6_PALETTE 0 = some 5 := by
      norm_num [preservedIndexAux, E6_PALETTE, colorBlack, colorWhite,
        colorRed, colorYellow, colorGreen, colorBlue]
    simp only [preservedIndex, ha, Option.getD]
    rfl

set_option maxHeartbeats 1000000 in
/-- Characterization of `find_nearest_palette_color` on the 6-color palette:
the returned index addresses the returned color, that color's (squared)
distance to the pixel is minimal, and every strictly earlier palette entry is
strictly farther (first-minimum tie-break of `np.argmin`). -/
theorem nearest_spec (p : RGB) :
    E6_PALETTE.get? (find_nearest_palette_color p E6_PALETTE).1 =
      some (find_nearest_palette_color p E6_PALETTE).2 ∧
    (∀ j c, E6_PALETTE.get? j = some c →
      dist2 (find_nearest_palette_color p E6_PALETTE).2 p ≤ dist2 c p) ∧
    (∀ j c, E6_PALETTE.get? j = some c →
      j < (find_nearest_palette_color p E6_PALETTE).1 →
      dist2 (find_nearest_palette_color p E6_PALETTE).2 p < dist2 c p) := by
  simp only [find_nearest_palette_color, E6_PALETTE, find_nearest_aux]
  split_ifs <;>
    dsimp only <;>
    refine ⟨rfl, ?_, ?_⟩ <;>
    intro j c hget <;>
    (try intro hlt) <;>
    rcases j with _ | _ | _ | _ | _ | _ | j <;>
    simp only [List.get?] at hget <;>
    first
      | exact Option.noConfusion hget
      | (injection hget with hc; subst hc; first | omega | linarith)

/-- The chosen nearest color is a palette member. -/
theorem nearest_mem (p : RGB) :
    (find_nearest_palette_color p E6_PALETTE).2 ∈ E6_PALETTE :=
  List.get?_mem (nearest_spec p).1

/-! ### Per-step facts about the dithering loop -/

/-- A preserved pixel leaves the whole working buffer untouched (zero error,
distribution block skipped). -/
theorem ditherStep_work_preserved (cfg : DitherConfig) (orig : ℕ → ℕ → RGB)
    (w h : ℕ) (st : DitherState) (y x : ℕ) (pc : RGB)
    (hp : should_preserve_pixel cfg (orig y x) = some pc) :
    (ditherStep cfg orig w h st y x).work = st.work := by
  simp only [ditherStep, hp]

/-- A preserved pixel's output color and palette index depend only on the
original pixel, not on the (error-adjusted) working state. -/
theorem ditherStep_out_preserved (cfg : DitherConfig) (orig : ℕ → ℕ → RGB)
    (w h : ℕ) (st : DitherState) (y x : ℕ) (pc : RGB)
    (hp : should_preserve_pixel cfg (orig y x) = some pc) :
    (ditherStep cfg orig w h st y x).out y x = pc ∧
    (ditherStep cfg orig w h st y x).idx y x = preservedIndex pc := by
  simp only [ditherStep, hp]
  exact ⟨upd_self st.out y x pc, upd_self st.idx y x (preservedIndex pc)⟩

/-- A non-preserved pixel quantizes the working value and diffuses
`old − new`. -/
theorem ditherStep_quantized (cfg : DitherConfig) (orig : ℕ → ℕ → RGB)
    (w h : ℕ) (st : DitherState) (y x : ℕ)
    (hp : should_preserve_pixel cfg (orig y x) = none) :
    (ditherStep cfg orig w h st y x).out y x =
      (find_nearest_palette_color (st.work y x) E6_PALETTE).2 ∧
    (ditherStep cfg orig w h st y x).idx y x =
      (find_nearest_palette_color (st.work y x) E6_PALETTE).1 ∧
    (ditherStep cfg orig w h st y x).work =
      diffuseError w h st.work y x
        (st.work y x - (find_nearest_palette_color (st.work y x) E6_PALETTE).2) := by
  simp only [ditherStep, hp]
  exact ⟨upd_self st.out y x _, upd_self st.idx y x _, trivial⟩

/-- A step writes the output raster only at its own coordinate. -/
theorem ditherStep_out_ne (cfg : DitherConfig) (orig : ℕ → ℕ → RGB)
    (w h : ℕ) (st : DitherState) (y x y' x' : ℕ)
    (hne : ¬ (y' = y ∧ x' = x)) :
    (ditherStep cfg orig w h st y x).out y' x' = st.out y' x' := by
  cases hm : should_preserve_pixel cfg (orig y x) with
  | some pc =>
      simp only [ditherStep, hm]
      exact upd_ne _ _ _ _ _ _ hne
  | none =>
      simp only [ditherStep, hm]
      exact upd_ne _ _ _ _ _ _ hne

/-- A step writes the index map only at its own coordinate. -/
theorem ditherStep_idx_ne (cfg : DitherConfig) (orig : ℕ → ℕ → RGB)
    (w h : ℕ) (st : DitherState) (y x y' x' : ℕ)
    (hne : ¬ (y' = y ∧ x' = x)) :
    (ditherStep cfg orig w h st y x).idx y' x' = st.idx y' x' := by
  cases hm : should_preserve_pixel cfg (orig y x) with
  | some pc =>
      simp only [ditherStep, hm]
      exact upd_ne _ _ _ _ _ _ hne
  | none =>
      simp only [ditherStep, hm]
      exact upd_ne _ _ _ _ _ _ hne

/-- One step keeps the joint invariant: every output cell holds a palette
color, and the index map addresses exactly the output color. -/
theorem ditherStep_inv (cfg : DitherConfig) (orig : ℕ → ℕ → RGB)
    (w h : ℕ) (st : DitherState) (y x : ℕ)
    (hout : ∀ y' x', st.out y' x' ∈ E6_PALETTE)
    (hidx : ∀ y' x', E6_PALETTE.get? (st.idx y' x') = some (st.out y' x')) :
    (∀ y' x', (ditherStep cfg orig w h st y x).out y' x' ∈ E6_PALETTE) ∧
    (∀ y' x', E6_PALETTE.get? ((ditherStep cfg orig w h st y x).idx y' x') =
      some ((ditherStep cfg orig w h st y x).out y' x')) := by
  constructor <;> intro y' x'
  · by_cases he : y' = y ∧ x' = x
    · rcases he with ⟨hy, hx⟩
      subst hy
      subst hx
      cases hm : should_preserve_pixel cfg (orig y' x') with
      | some pc =>
          rw [(ditherStep_out_preserved cfg orig w h st y' x' pc hm).1]
          exact preserve_mem cfg (orig y' x') pc hm
      | none =>
          rw [(ditherStep_quantized cfg orig w h st y' x' hm).1]
          exact nearest_mem (st.work y' x')
    · rw [ditherStep_out_ne cfg orig w h st y x y' x' he]
      exact hout y' x'
  · by_cases he : y' = y ∧ x' = x
    · rcases he with ⟨hy, hx⟩
      subst hy
      subst hx
      cases hm : should_preserve_pixel cfg (orig y' x') with
      | some pc =>
          rw [(ditherStep_out_preserved cfg orig w h st y' x' pc hm).1,
            (ditherStep_out_preserved cfg orig w h st y' x' pc hm).2]
          exact preservedIndex_get pc (preserve_mem cfg (orig y' x') pc hm)
      | none =>
          rw [(ditherStep_quantized cfg orig w h st y' x' hm).1,
            (ditherStep_quantized cfg orig w h st y' x' hm).2.1]
          exact (nearest_spec (st.work y' x')).1
    · rw [ditherStep_out_ne cfg orig w h st y x y' x' he,
        ditherStep_idx_ne cfg orig w h st y x y' x' he]
      exact hidx y' x'

/-- The invariant of `ditherStep_inv` carried through the whole fold. -/
theorem foldl_inv (cfg : DitherConfig) (orig : ℕ → ℕ → RGB) (w h : ℕ) :
    ∀ (L : List (ℕ × ℕ)) (st : DitherState),
      (∀ y x, st.out y x ∈ E6_PALETTE) →
      (∀ y x, E6_PALETTE.get? (st.idx y x) = some (st.out y x)) →
      (∀ y x, (L.foldl (fun s yx => ditherStep cfg orig w h s yx.1 yx.2) st).out
          y x ∈ E6_PALETTE) ∧
      (∀ y x, E6_PALETTE.get?
          ((L.foldl (fun s yx => ditherStep cfg orig w h s yx.1 yx.2) st).idx y x) =
        some ((L.foldl (fun s yx => ditherStep cfg orig w h s yx.1 yx.2) st).out y x)) := by
  intro L
  induction L with
  | nil => intro st hout hidx; exact ⟨hout, hidx⟩
  | cons a L ih =>
      intro st hout hidx
      simp only [List.foldl_cons]
      have hstep := ditherStep_inv cfg orig w h st a.1 a.2 hout hidx
      exact ih (ditherStep cfg orig w h st a.1 a.2) hstep.1 hstep.2

/-- Every cell of the final output raster holds a palette color. -/
theorem floyd_out_mem (cfg : DitherConfig) (img : ImageQ) (y x : ℕ) :
    (floyd_steinberg_dither cfg img).1 y x ∈ E6_PALETTE := by
  have h := foldl_inv cfg img.pix img.width img.height
    (coords img.height img.width)
    ⟨img.pix, fun _ _ => ⟨0, 0, 0⟩, fun _ _ => 0⟩
    (fun _ _ => by simp [E6_PALETTE, colorBlack])
    (fun _ _ => rfl)
  exact h.1 y x

/-- The final index map always addresses the final output color. -/
theorem floyd_idx_get (cfg : DitherConfig) (img : ImageQ) (y x : ℕ) :
    E6_PALETTE.get? ((floyd_steinberg_dither cfg img).2 y x) =
      some ((floyd_steinberg_dither cfg img).1 y x) := by
  have h := foldl_inv cfg img.pix img.width img.height
    (coords img.height img.width)
    ⟨img.pix, fun _ _ => ⟨0, 0, 0⟩, fun _ _ => 0⟩
    (fun _ _ => by simp [E6_PALETTE, colorBlack])
    (fun _ _ => rfl)
  exact h.2 y x

/-- Write-once argument for a preserved coordinate: once the pass has
processed `(y, x)` (or if the state already records the preserved result
there), the final output and index at `(y, x)` are the preserved color and
its palette slot — diffusion from other pixels never alters them. -/
theorem foldl_preserved (cfg : DitherConfig) (orig : ℕ → ℕ → RGB) (w h : ℕ)
    (y x : ℕ) (pc : RGB)
    (hp : should_preserve_pixel cfg (orig y x) = some pc) :
    ∀ (L : List (ℕ × ℕ)) (st : DitherState),
      ((y, x) ∈ L ∨ (st.out y x = pc ∧ st.idx y x = preservedIndex pc)) →
      ((L.foldl (fun s yx => ditherStep cfg orig w h s yx.1 yx.2) st).out y x = pc ∧
       (L.foldl (fun s yx => ditherStep cfg orig w h s yx.1 yx.2) st).idx y x =
         preservedIndex pc) := by
  intro L
  induction L with
  | nil =>
      intro st hmem
      rcases hmem with hmem | hmem
      · cases hmem
      · exact hmem
  | cons a L ih =>
      intro st hmem
      rcases a with ⟨ay, ax⟩
      simp only [List.foldl_cons]
      apply ih
      by_cases he : y = ay ∧ x = ax
      · rcases he with ⟨hy, hx⟩
        subst hy
        subst hx
        exact Or.inr (ditherStep_out_preserved cfg orig w h st y x pc hp)
      · rcases hmem with hmem | hmem
        · rcases List.mem_cons.mp hmem with heq | hmem
          · exfalso
            apply he
            exact ⟨congrArg Prod.fst heq, congrArg Prod.snd heq⟩
          · exact Or.inl hmem
        · refine Or.inr ?_
          rw [ditherStep_out_ne cfg orig w h st ay ax y x he,
            ditherStep_idx_ne cfg orig w h st ay ax y x he]
          exact hmem

/-- The right neighbor (when in bounds) receives exactly `7/16` of the
error, whatever other targets exist. -/
theorem diffuseError_right (w h : ℕ) (g : ℕ → ℕ → RGB) (y x : ℕ) (e : RGB)
    (hx : x + 1 < w) :
    diffuseError w h g y x e y (x + 1) = g y (x + 1) + RGB.smul (7 / 16) e := by
  simp only [diffuseError, if_pos hx]
  by_cases hy : y + 1 < h
  · rw [if_pos hy]
    by_cases hx0 : 0 < x
    · rw [if_pos hx0]
      rw [addErr_ne _ _ _ _ _ _ (by omega), addErr_ne _ _ _ _ _ _ (by omega),
        addErr_ne _ _ _ _ _ _ (by omega), addErr_self]
    · rw [if_neg hx0]
      rw [addErr_ne _ _ _ _ _ _ (by omega), addErr_ne _ _ _ _ _ _ (by omega),
        addErr_self]
  · rw [if_neg hy, addErr_self]

/-- The below neighbor (when in bounds) receives exactly `5/16` of the
error. -/
theorem diffuseError_below (w h : ℕ) (g : ℕ → ℕ → RGB) (y x : ℕ) (e : RGB)
    (hy : y + 1 < h) :
    diffuseError w h g y x e (y + 1) x = g (y + 1) x + RGB.smul (5 / 16) e := by
  simp only [diffuseError, if_pos hy]
  by_cases hxw : x + 1 < w
  · rw [if_pos hxw, if_pos hxw]
    by_cases hx0 : 0 < x
    · rw [if_pos hx0]
      rw [addErr_ne _ _ _ _ _ _ (by omega), addErr_ne _ _ _ _ _ _ (by omega),
        addErr_self, addErr_ne _ _ _ _ _ _ (by omega)]
    · rw [if_neg hx0]
      rw [addErr_ne _ _ _ _ _ _ (by omega), addErr_self,
        addErr_ne _ _ _ _ _ _ (by omega)]
  · rw [if_neg hxw, if_neg hxw]
    by_cases hx0 : 0 < x
    · rw [if_pos hx0]
      rw [addErr_ne _ _ _ _ _ _ (by omega), addErr_self]
    · rw [if_neg hx0, addErr_self]

/-- The below-left neighbor (when in bounds) receives exactly `3/16` of the
error. -/
theorem diffuseError_belowLeft (w h : ℕ) (g : ℕ → ℕ → RGB) (y x : ℕ) (e : RGB)
    (hy : y + 1 < h) (hx0 : 0 < x) :
    diffuseError w h g y x e (y + 1) (x - 1) =
      g (y + 1) (x - 1) + RGB.smul (3 / 16) e := by
  simp only [diffuseError, if_pos hy, if_pos hx0]
  by_cases hxw : x + 1 < w
  · rw [if_pos hxw, if_pos hxw]
    rw [addErr_ne _ _ _ _ _ _ (by omega), addErr_self,
      addErr_ne _ _ _ _ _ _ (by omega), addErr_ne _ _ _ _ _ _ (by omega)]
  · rw [if_neg hxw, if_neg hxw]
    rw [addErr_self, addErr_ne _ _ _ _ _ _ (by omega)]

/-- The below-right neighbor (when in bounds) receives exactly `1/16` of
the error. -/
theorem diffuseError_belowRight (w h : ℕ) (g : ℕ → ℕ → RGB) (y x : ℕ) (e : RGB)
    (hy : y + 1 < h) (hxw : x + 1 < w) :
    diffuseError w h g y x e (y + 1) (x + 1) =
      g (y + 1) (x + 1) + RGB.smul (1 / 16) e := by
  simp only [diffuseError, if_pos hy, if_pos hxw]
  by_cases hx0 : 0 < x
  · rw [if_pos hx0]
    rw [addErr_self, addErr_ne _ _ _ _ _ _ (by omega),
      addErr_ne _ _ _ _ _ _ (by omega), addErr_ne _ _ _ _ _ _ (by omega)]
  · rw [if_neg hx0]
    rw [addErr_self, addErr_ne _ _ _ _ _ _ (by omega),
      addErr_ne _ _ _ _ _ _ (by omega)]

/-- Cells other than the four diffusion targets are never touched. -/
theorem diffuseError_other (w h : ℕ) (g : ℕ → ℕ → RGB) (y x : ℕ) (e : RGB)
    (y' x' : ℕ)
    (h1 : ¬ (y' = y ∧ x' = x + 1)) (h2 : ¬ (y' = y + 1 ∧ x' = x))
    (h3 : ¬ (y' = y + 1 ∧ x' = x - 1)) (h4 : ¬ (y' = y + 1 ∧ x' = x + 1)) :
    diffuseError w h g y x e y' x' = g y' x' := by
  simp only [diffuseError]
  by_cases hxw : x + 1 < w <;> by_cases hy : y + 1 < h <;>
    by_cases hx0 : 0 < x <;>
    simp only [if_pos, if_neg, hxw, hy, hx0, if_true, if_false] <;>
    repeat rw [addErr_ne _ _ _ _ _ _ (by tauto)]

/-! ## Claim theorems -/

/-- C1: for every input raster with positive width and height, every pixel
of the quantized raster returned by `floyd_steinberg_dither` is bit-exact
equal to one of the six declared palette triples — no blended colors
survive. -/
theorem c1_palette_closure (cfg : DitherConfig) (img : ImageQ) (y x : ℕ)
    (hw : 0 < img.width) (hh : 0 < img.height)
    (hy : y < img.height) (hx : x < img.width) :
    (floyd_steinberg_dither cfg img).1 y x = ⟨0, 0, 0⟩ ∨
    (floyd_steinberg_dither cfg img).1 y x = ⟨255, 255, 255⟩ ∨
    (floyd_steinberg_dither cfg img).1 y x = ⟨255, 0, 0⟩ ∨
    (floyd_steinberg_dither cfg img).1 y x = ⟨255, 255, 0⟩ ∨
    (floyd_steinberg_dither cfg img).1 y x = ⟨0, 255, 0⟩ ∨
    (floyd_steinberg_dither cfg img).1 y x = ⟨0, 0, 255⟩ := by
  have hm := floyd_out_mem cfg img y x
  simpa [E6_PALETTE, colorBlack, colorWhite, colorRed, colorYellow,
    colorGreen, colorBlue] using hm

/-- Witness for C1 at the concrete 1×1 mid-gray raster. -/
theorem c1_witness :
    0 < grayImage.width ∧ 0 < grayImage.height ∧
    ((floyd_steinberg_dither defaultConfig grayImage).1 0 0 = ⟨0, 0, 0⟩ ∨
     (floyd_steinberg_dither defaultConfig grayImage).1 0 0 = ⟨255, 255, 255⟩ ∨
     (floyd_steinberg_dither defaultConfig grayImage).1 0 0 = ⟨255, 0, 0⟩ ∨
     (floyd_steinberg_dither defaultConfig grayImage).1 0 0 = ⟨255, 255, 0⟩ ∨
     (floyd_steinberg_dither defaultConfig grayImage).1 0 0 = ⟨0, 255, 0⟩ ∨
     (floyd_steinberg_dither defaultConfig grayImage).1 0 0 = ⟨0, 0, 255⟩) :=
  ⟨by decide, by decide,
    c1_palette_closure defaultConfig grayImage 0 0 (by decide) (by decide)
      (by decide) (by decide)⟩

/-- C2: for every input raster and every in-bounds coordinate, the palette
entry addressed by the index map equals the RGB value of the output raster
there. -/
theorem c2_index_consistency (cfg : DitherConfig) (img : ImageQ) (y x : ℕ)
    (hy : y < img.height) (hx : x < img.width) :
    E6_PALETTE.get? ((floyd_steinberg_dither cfg img).2 y x) =
      some ((floyd_steinberg_dither cfg img).1 y x) :=
  floyd_idx_get cfg img y x

/-- Witness for C2 at the concrete 1×1 mid-gray raster. -/
theorem c2_witness :
    0 < grayImage.height ∧ 0 < grayImage.width ∧
    E6_PALETTE.get? ((floyd_steinberg_dither defaultConfig grayImage).2 0 0) =
      some ((floyd_steinberg_dither defaultConfig grayImage).1 0 0) :=
  ⟨by decide, by decide,
    c2_index_consistency defaultConfig grayImage 0 0 (by decide) (by decide)⟩

/-- C5: a pixel the policy preserves emits no error (the whole working
buffer is left untouched by its step), its step output and index depend only
on the original pixel (any state `st` gives the same result), and in the
full pass diffusion from other pixels does not affect its final output color
or index. -/
theorem c5_preserved_isolated (cfg : DitherConfig) (img : ImageQ) (y x : ℕ)
    (pc : RGB)
    (hp : should_preserve_pixel cfg (img.pix y x) = some pc)
    (hy : y < img.height) (hx : x < img.width) :
    (∀ (w h : ℕ) (st : DitherState),
      (ditherStep cfg img.pix w h st y x).work = st.work) ∧
    (∀ (w h : ℕ) (st : DitherState),
      (ditherStep cfg img.pix w h st y x).out y x = pc ∧
      (ditherStep cfg img.pix w h st y x).idx y x = preservedIndex pc) ∧
    (floyd_steinberg_dither cfg img).1 y x = pc ∧
    (floyd_steinberg_dither cfg img).2 y x = preservedIndex pc := by
  refine ⟨fun w h st => ditherStep_work_preserved cfg img.pix w h st y x pc hp,
    fun w h st => ditherStep_out_preserved cfg img.pix w h st y x pc hp, ?_, ?_⟩
  · exact (foldl_preserved cfg img.pix img.width img.height y x pc hp
      (coords img.height img.width)
      ⟨img.pix, fun _ _ => ⟨0, 0, 0⟩, fun _ _ => 0⟩
      (Or.inl ((mem_coords img.height img.width y x).mpr ⟨hy, hx⟩))).1
  · exact (foldl_preserved cfg img.pix img.width img.height y x pc hp
      (coords img.height img.width)
      ⟨img.pix, fun _ _ => ⟨0, 0, 0⟩, fun _ _ => 0⟩
      (Or.inl ((mem_coords img.height img.width y x).mpr ⟨hy, hx⟩))).2

/-- Witness for C5 at the concrete 1×1 near-white raster. -/
theorem c5_witness :
    should_preserve_pixel defaultConfig (brightImage.pix 0 0) =
      some ⟨255, 255, 255⟩ ∧
    (floyd_steinberg_dither defaultConfig brightImage).1 0 0 =
      ⟨255, 255, 255⟩ := by
  have hp : should_preserve_pixel defaultConfig (brightImage.pix 0 0) =
      some ⟨255, 255, 255⟩ := by
    norm_num [should_preserve_pixel, defaultConfig, brightImage, colorWhite]
  exact ⟨hp, (c5_preserved_isolated defaultConfig brightImage 0 0
    ⟨255, 255, 255⟩ hp (by decide) (by decide)).2.2.1⟩

/-- C9: every preserved color is a palette member, and the tolerance-1 index
search recovers exactly its slot, so the index-0 fallback never records an
index whose palette color differs from the output color. -/
theorem c9_preserved_index_total (cfg : DitherConfig) (p pc : RGB)
    (hp : should_preserve_pixel cfg p = some pc) :
    pc ∈ E6_PALETTE ∧ E6_PALETTE.get? (preservedIndex pc) = some pc := by
  have hm := preserve_mem cfg p pc hp
  exact ⟨hm, preservedIndex_get pc hm⟩

/-- Witness for C9 at a concrete near-black pixel preserved as black. -/
theorem c9_witness :
    should_preserve_pixel defaultConfig ⟨10, 10, 10⟩ = some ⟨0, 0, 0⟩ ∧
    (⟨0, 0, 0⟩ : RGB) ∈ E6_PALETTE ∧
    E6_PALETTE.get? (preservedIndex ⟨0, 0, 0⟩) = some ⟨0, 0, 0⟩ := by
  have hp : should_preserve_pixel defaultConfig ⟨10, 10, 10⟩ =
      some ⟨0, 0, 0⟩ := by
    norm_num [should_preserve_pixel, defaultConfig, colorBlack]
  exact ⟨hp, c9_preserved_index_total defaultConfig ⟨10, 10, 10⟩ ⟨0, 0, 0⟩ hp⟩

/-- Squared distance is nonnegative. -/
theorem dist2_nonneg (a b : RGB) : 0 ≤ dist2 a b := by
  unfold dist2
  positivity

/-- Squared distance vanishes exactly on equal pixels. -/
theorem dist2_eq_zero_iff (a b : RGB) : dist2 a b = 0 ↔ a = b := by
  constructor
  · intro h
    unfold dist2 at h
    have hr : (a.r - b.r) ^ 2 = 0 := by
      nlinarith [sq_nonneg (a.g - b.g), sq_nonneg (a.b - b.b), sq_nonneg (a.r - b.r)]
    have hg : (a.g - b.g) ^ 2 = 0 := by
      nlinarith [sq_nonneg (a.g - b.g), sq_nonneg (a.b - b.b), sq_nonneg (a.r - b.r)]
    have hb : (a.b - b.b) ^ 2 = 0 := by
      nlinarith [sq_nonneg (a.g - b.g), sq_nonneg (a.b - b.b), sq_nonneg (a.r - b.r)]
    have hr' : a.r = b.r := by
      have := pow_eq_zero_iff (n := 2) (by omega) |>.mp hr
      linarith [this]
    have hg' : a.g = b.g := by
      have := pow_eq_zero_iff (n := 2) (by omega) |>.mp hg
      linarith [this]
    have hb' : a.b = b.b := by
      have := pow_eq_zero_iff (n := 2) (by omega) |>.mp hb
      linarith [this]
    cases a
    cases b
    simp only [RGB.mk.injEq]
    exact ⟨hr', hg', hb'⟩
  · intro h
    subst h
    unfold dist2
    ring

/-- C6: `find_nearest_palette_color` returns the first palette entry (in
declaration order) achieving the minimum Euclidean distance, for every
rational-valued pixel (including out-of-range channels); in particular a
pixel exactly at a palette color gets that color back at distance 0. -/
theorem c6_nearest_first_minimum (p : RGB) :
    (E6_PALETTE.get? (find_nearest_palette_color p E6_PALETTE).1 =
      some (find_nearest_palette_color p E6_PALETTE).2) ∧
    (∀ j c, E6_PALETTE.get? j = some c →
      dist2 (find_nearest_palette_color p E6_PALETTE).2 p ≤ dist2 c p) ∧
    (∀ j c, E6_PALETTE.get? j = some c →
      j < (find_nearest_palette_color p E6_PALETTE).1 →
      dist2 (find_nearest_palette_color p E6_PALETTE).2 p < dist2 c p) ∧
    (∀ c, c ∈ E6_PALETTE →
      (find_nearest_palette_color c E6_PALETTE).2 = c ∧ dist2 c c = 0) := by
  obtain ⟨hget, hmin, hfirst⟩ := nearest_spec p
  refine ⟨hget, hmin, hfirst, ?_⟩
  intro c hc
  obtain ⟨j, hj⟩ := List.mem_iff_get?.mp hc
  obtain ⟨hget', hmin', _⟩ := nearest_spec c
  have h0 : dist2 (find_nearest_palette_color c E6_PALETTE).2 c ≤ dist2 c c :=
    hmin' j c hj
  have hcc : dist2 c c = 0 := (dist2_eq_zero_iff c c).mpr rfl
  have hz : dist2 (find_nearest_palette_color c E6_PALETTE).2 c = 0 :=
    le_antisymm (by rw [hcc] at h0; exact h0)
      (dist2_nonneg (find_nearest_palette_color c E6_PALETTE).2 c)
  exact ⟨(dist2_eq_zero_iff _ c).mp hz, hcc⟩

/-- Witness for C6 at the mid-gray pixel and the white palette entry. -/
theorem c6_witness :
    E6_PALETTE.get? 1 = some ⟨255, 255, 255⟩ ∧
    dist2 (find_nearest_palette_color ⟨128, 128, 128⟩ E6_PALETTE).2
        ⟨128, 128, 128⟩ ≤
      dist2 ⟨255, 255, 255⟩ ⟨128, 128, 128⟩ :=
  ⟨rfl, (c6_nearest_first_minimum ⟨128, 128, 128⟩).2.1 1 ⟨255, 255, 255⟩ rfl⟩

/-- C4: the preservation policy is evaluated with first-match order —
disabled ⇒ never preserve; all channels ≤ black threshold ⇒ pure black;
else all channels ≥ white threshold ⇒ pure white; else the first palette
entry within the Euclidean exact-match tolerance; else no preservation —
and the dithering step applies it to the ORIGINAL pixel, never the working
value. -/
theorem c4_preservation_policy (cfg : DitherConfig) (p : RGB) :
    (cfg.preserve_bw = false → should_preserve_pixel cfg p = none) ∧
    (cfg.preserve_bw = true →
      (p.r ≤ cfg.black_threshold ∧ p.g ≤ cfg.black_threshold ∧
          p.b ≤ cfg.black_threshold →
        should_preserve_pixel cfg p = some ⟨0, 0, 0⟩) ∧
      (¬ (p.r ≤ cfg.black_threshold ∧ p.g ≤ cfg.black_threshold ∧
          p.b ≤ cfg.black_threshold) →
        cfg.white_threshold ≤ p.r ∧ cfg.white_threshold ≤ p.g ∧
          cfg.white_threshold ≤ p.b →
        should_preserve_pixel cfg p = some ⟨255, 255, 255⟩) ∧
      (¬ (p.r ≤ cfg.black_threshold ∧ p.g ≤ cfg.black_threshold ∧
          p.b ≤ cfg.black_threshold) →
        ¬ (cfg.white_threshold ≤ p.r ∧ cfg.white_threshold ≤ p.g ∧
          cfg.white_threshold ≤ p.b) →
        ∀ j c, E6_PALETTE.get? j = some c →
          0 ≤ cfg.bw_tolerance ∧
            dist2 c p ≤ cfg.bw_tolerance * cfg.bw_tolerance →
          (∀ k c', k < j → E6_PALETTE.get? k = some c' →
            ¬ (0 ≤ cfg.bw_tolerance ∧
              dist2 c' p ≤ cfg.bw_tolerance * cfg.bw_tolerance)) →
          should_preserve_pixel cfg p = some c) ∧
      (¬ (p.r ≤ cfg.black_threshold ∧ p.g ≤ cfg.black_threshold ∧
          p.b ≤ cfg.black_threshold) →
        ¬ (cfg.white_threshold ≤ p.r ∧ cfg.white_threshold ≤ p.g ∧
          cfg.white_threshold ≤ p.b) →
        (∀ j c, E6_PALETTE.get? j = some c →
          ¬ (0 ≤ cfg.bw_tolerance ∧
            dist2 c p ≤ cfg.bw_tolerance * cfg.bw_tolerance)) →
        should_preserve_pixel cfg p = none)) ∧
    (∀ (orig : ℕ → ℕ → RGB) (w h : ℕ) (st : DitherState) (y x : ℕ) (pc : RGB),
      should_preserve_pixel cfg (orig y x) = some pc →
      (ditherStep cfg orig w h st y x).out y x = pc) := by
  refine ⟨?_, fun hbw => ⟨?_, ?_, ?_, ?_⟩, ?_⟩
  · intro hoff
    simp [should_preserve_pixel, hoff]
  · intro hblack
    show should_preserve_pixel cfg p = some colorBlack
    simp [should_preserve_pixel, hbw, hblack]
  · intro hnb hwhite
    show should_preserve_pixel cfg p = some colorWhite
    simp [should_preserve_pixel, hbw, hnb, hwhite]
  · intro hnb hnw j c hj hc hfirst
    have hmatch : is_exact_palette_match cfg.bw_tolerance p = some (0 + j, c) :=
      matchAux_first cfg.bw_tolerance p E6_PALETTE 0 j c hj hc hfirst
    simp [should_preserve_pixel, hbw, hnb, hnw, hmatch]
  · intro hnb hnw hnone
    have hmatch : is_exact_palette_match cfg.bw_tolerance p = none := by
      apply matchAux_eq_none
      intro c hc
      obtain ⟨j, hj⟩ := List.mem_iff_get?.mp hc
      exact hnone j c hj
    simp [should_preserve_pixel, hbw, hnb, hnw, hmatch]
  · intro orig w h st y x pc hp
    exact (ditherStep_out_preserved cfg orig w h st y x pc hp).1

/-- Witness for C4 at the default configuration and a near-black pixel. -/
theorem c4_witness :
    defaultConfig.preserve_bw = true ∧
    ((10 : ℚ) ≤ defaultConfig.black_threshold ∧
      (10 : ℚ) ≤ defaultConfig.black_threshold ∧
      (10 : ℚ) ≤ defaultConfig.black_threshold) ∧
    should_preserve_pixel defaultConfig ⟨10, 10, 10⟩ = some ⟨0, 0, 0⟩ := by
  have h1 : defaultConfig.preserve_bw = true := rfl
  have h2 : (10 : ℚ) ≤ defaultConfig.black_threshold ∧
      (10 : ℚ) ≤ defaultConfig.black_threshold ∧
      (10 : ℚ) ≤ defaultConfig.black_threshold := by
    norm_num [defaultConfig]
  exact ⟨h1, h2, ((c4_preservation_policy defaultConfig ⟨10, 10, 10⟩).2.1 h1).1 h2⟩

/-- C3: a non-preserved pixel diffuses its quantization error with weights
7/16 (right), 5/16 (below), 3/16 (below-left), 1/16 (below-right); each
in-bounds neighbor receives exactly its fraction, regardless of which other
neighbors were out of bounds (dropped fractions are never redistributed);
no other cell is touched; and at interior coordinates the four delivered
contributions sum to the error exactly. -/
theorem c3_error_conservation (cfg : DitherConfig) (orig : ℕ → ℕ → RGB)
    (w h : ℕ) (st : DitherState) (y x : ℕ) (err : RGB)
    (hp : should_preserve_pixel cfg (orig y x) = none)
    (herr : err = st.work y x -
      (find_nearest_palette_color (st.work y x) E6_PALETTE).2) :
    (x + 1 < w → (ditherStep cfg orig w h st y x).work y (x + 1) =
      st.work y (x + 1) + RGB.smul (7 / 16) err) ∧
    (y + 1 < h → (ditherStep cfg orig w h st y x).work (y + 1) x =
      st.work (y + 1) x + RGB.smul (5 / 16) err) ∧
    (y + 1 < h → 0 < x → (ditherStep cfg orig w h st y x).work (y + 1) (x - 1) =
      st.work (y + 1) (x - 1) + RGB.smul (3 / 16) err) ∧
    (y + 1 < h → x + 1 < w → (ditherStep cfg orig w h st y x).work (y + 1) (x + 1) =
      st.work (y + 1) (x + 1) + RGB.smul (1 / 16) err) ∧
    (∀ y' x', ¬ (y' = y ∧ x' = x + 1) → ¬ (y' = y + 1 ∧ x' = x) →
      ¬ (y' = y + 1 ∧ x' = x - 1) → ¬ (y' = y + 1 ∧ x' = x + 1) →
      (ditherStep cfg orig w h st y x).work y' x' = st.work y' x') ∧
    (x + 1 < w → y + 1 < h → 0 < x →
      ((ditherStep cfg orig w h st y x).work y (x + 1) - st.work y (x + 1)) +
        ((ditherStep cfg orig w h st y x).work (y + 1) x - st.work (y + 1) x) +
        ((ditherStep cfg orig w h st y x).work (y + 1) (x - 1) -
          st.work (y + 1) (x - 1)) +
        ((ditherStep cfg orig w h st y x).work (y + 1) (x + 1) -
          st.work (y + 1) (x + 1)) = err) := by
  have hw : (ditherStep cfg orig w h st y x).work =
      diffuseError w h st.work y x err := by
    rw [(ditherStep_quantized cfg orig w h st y x hp).2.2, ← herr]
  rw [hw]
  refine ⟨fun hxw => diffuseError_right w h st.work y x err hxw,
    fun hy => diffuseError_below w h st.work y x err hy,
    fun hy hx0 => diffuseError_belowLeft w h st.work y x err hy hx0,
    fun hy hxw => diffuseError_belowRight w h st.work y x err hy hxw,
    fun y' x' h1 h2 h3 h4 => diffuseError_other w h st.work y x err y' x' h1 h2 h3 h4,
    ?_⟩
  intro hxw hy hx0
  rw [diffuseError_right w h st.work y x err hxw,
    diffuseError_below w h st.work y x err hy,
    diffuseError_belowLeft w h st.work y x err hy hx0,
    diffuseError_belowRight w h st.work y x err hy hxw]
  rcases err with ⟨er, eg, eb⟩
  rcases st.work y (x + 1) with ⟨a1, a2, a3⟩
  rcases st.work (y + 1) x with ⟨b1, b2, b3⟩
  rcases st.work (y + 1) (x - 1) with ⟨c1, c2, c3⟩
  rcases st.work (y + 1) (x + 1) with ⟨d1, d2, d3⟩
  simp only [RGB.smul, RGB.add_def, RGB.sub_def, RGB.mk.injEq]
  refine ⟨by ring, by ring, by ring⟩

/-- Mid-gray `(128,128,128)` fails every preservation rule of the default
configuration. -/
theorem gray_not_preserved :
    should_preserve_pixel defaultConfig ⟨128, 128, 128⟩ = none := by
  norm_num [should_preserve_pixel, is_exact_palette_match, matchAux,
    defaultConfig, dist2, E6_PALETTE, colorBlack, colorWhite, colorRed,
    colorYellow, colorGreen, colorBlue]

/-- The nearest palette color to mid-gray is white (index 1): the squared
distances are black 49152, white 48387, red/green/blue 48897, yellow 48642. -/
theorem gray_nearest :
    find_nearest_palette_color ⟨128, 128, 128⟩ E6_PALETTE =
      (1, ⟨255, 255, 255⟩) := by
  norm_num [find_nearest_palette_color, find_nearest_aux, dist2, E6_PALETTE,
    colorBlack, colorWhite, colorRed, colorYellow, colorGreen, colorBlue,
    Prod.ext_iff, RGB.mk.injEq]

/-- Full evaluation of the dithering pass on the 1×1 mid-gray raster: the
output pixel is white with palette index 1. -/
theorem grayEval :
    (floyd_steinberg_dither defaultConfig grayImage).1 0 0 = ⟨255, 255, 255⟩ ∧
    (floyd_steinberg_dither defaultConfig grayImage).2 0 0 = 1 := by
  have hc : coords grayImage.height grayImage.width = [(0, 0)] := by decide
  simp only [floyd_steinberg_dither, hc, List.foldl_cons, List.foldl_nil]
  have hp : should_preserve_pixel defaultConfig (grayImage.pix 0 0) = none :=
    gray_not_preserved
  constructor
  · rw [(ditherStep_quantized defaultConfig grayImage.pix grayImage.width
      grayImage.height ⟨grayImage.pix, fun _ _ => ⟨0, 0, 0⟩, fun _ _ => 0⟩ 0 0 hp).1]
    show (find_nearest_palette_color (grayImage.pix 0 0) E6_PALETTE).2 = _
    rw [show grayImage.pix 0 0 = (⟨128, 128, 128⟩ : RGB) from rfl, gray_nearest]
  · rw [(ditherStep_quantized defaultConfig grayImage.pix grayImage.width
      grayImage.height ⟨grayImage.pix, fun _ _ => ⟨0, 0, 0⟩, fun _ _ => 0⟩ 0 0 hp).2.1]
    show (find_nearest_palette_color (grayImage.pix 0 0) E6_PALETTE).1 = _
    rw [show grayImage.pix 0 0 = (⟨128, 128, 128⟩ : RGB) from rfl, gray_nearest]

/-- C7 counterexample: on the 1×1 mid-gray raster with the default
configuration, the distances to black and white are NOT tied
(3·128² = 49152 vs 3·127² = 48387), and the output pixel is NOT black with
index 0 — contradicting the claim's asserted tie and result. -/
theorem c7_counterexample :
    dist2 colorBlack ⟨128, 128, 128⟩ ≠ dist2 colorWhite ⟨128, 128, 128⟩ ∧
    (floyd_steinberg_dither defaultConfig grayImage).1 0 0 ≠ ⟨0, 0, 0⟩ ∧
    (floyd_steinberg_dither defaultConfig grayImage).2 0 0 ≠ 0 := by
  refine ⟨by norm_num [dist2, colorBlack, colorWhite], ?_, ?_⟩
  · rw [grayEval.1]
    simp only [RGB.mk.injEq, ne_eq]
    norm_num
  · rw [grayEval.2]
    norm_num

/-- C7 amended: the 1×1 mid-gray raster is not preserved, white is the
UNIQUE nearest palette entry (strictly closer than black and every other
entry), and the output pixel is white `(255,255,255)` with palette
index 1. -/
theorem c7_mid_gray_amended :
    should_preserve_pixel defaultConfig ⟨128, 128, 128⟩ = none ∧
    dist2 colorWhite ⟨128, 128, 128⟩ < dist2 colorBlack ⟨128, 128, 128⟩ ∧
    dist2 colorWhite ⟨128, 128, 128⟩ < dist2 colorRed ⟨128, 128, 128⟩ ∧
    dist2 colorWhite ⟨128, 128, 128⟩ < dist2 colorYellow ⟨128, 128, 128⟩ ∧
    dist2 colorWhite ⟨128, 128, 128⟩ < dist2 colorGreen ⟨128, 128, 128⟩ ∧
    dist2 colorWhite ⟨128, 128, 128⟩ < dist2 colorBlue ⟨128, 128, 128⟩ ∧
    find_nearest_palette_color ⟨128, 128, 128⟩ E6_PALETTE =
      (1, ⟨255, 255, 255⟩) ∧
    (floyd_steinberg_dither defaultConfig grayImage).1 0 0 = ⟨255, 255, 255⟩ ∧
    (floyd_steinberg_dither defaultConfig grayImage).2 0 0 = 1 :=
  ⟨gray_not_preserved,
    by norm_num [dist2, colorWhite, colorBlack],
    by norm_num [dist2, colorWhite, colorRed],
    by norm_num [dist2, colorWhite, colorYellow],
    by norm_num [dist2, colorWhite, colorGreen],
    by norm_num [dist2, colorWhite, colorBlue],
    gray_nearest, grayEval.1, grayEval.2⟩

/-- Witness for C3: the mid-tone pixel `(100,40,200)` at interior
coordinate (1,1) of a 3×3 grid delivers exactly its quantization error
(against nearest color blue) to its four neighbors. -/
theorem c3_witness :
    should_preserve_pixel defaultConfig (c3orig 1 1) = none ∧
    ((ditherStep defaultConfig c3orig 3 3 c3state 1 1).work 1 2 -
        c3state.work 1 2) +
      ((ditherStep defaultConfig c3orig 3 3 c3state 1 1).work 2 1 -
        c3state.work 2 1) +
      ((ditherStep defaultConfig c3orig 3 3 c3state 1 1).work 2 0 -
        c3state.work 2 0) +
      ((ditherStep defaultConfig c3orig 3 3 c3state 1 1).work 2 2 -
        c3state.work 2 2) = c3err := by
  have hp : should_preserve_pixel defaultConfig (c3orig 1 1) = none := by
    norm_num [should_preserve_pixel, is_exact_palette_match, matchAux,
      defaultConfig, dist2, E6_PALETTE, c3orig, colorBlack, colorWhite,
      colorRed, colorYellow, colorGreen, colorBlue]
  have hnear : find_nearest_palette_color (c3state.work 1 1) E6_PALETTE =
      (5, ⟨0, 0, 255⟩) := by
    norm_num [find_nearest_palette_color, find_nearest_aux, dist2, E6_PALETTE,
      c3state, c3orig, colorBlack, colorWhite, colorRed, colorYellow,
      colorGreen, colorBlue, Prod.ext_iff, RGB.mk.injEq]
  have herr : c3err = c3state.work 1 1 -
      (find_nearest_palette_color (c3state.work 1 1) E6_PALETTE).2 := by
    rw [hnear]
    norm_num [c3err, c3state, c3orig, RGB.sub_def, RGB.mk.injEq]
  exact ⟨hp, (c3_error_conservation defaultConfig c3orig 3 3 c3state 1 1 c3err
    hp herr).2.2.2.2.2 (by omega) (by omega) (by omega)⟩

/-- The row-major coordinate list enumerates `h · w` cells. -/
theorem coords_length (h w : ℕ) : (coords h w).length = h * w := by
  induction h with
  | zero => simp [coords]
  | succ n ih =>
      unfold coords at ih ⊢
      rw [List.range_succ, List.flatMap_append, List.length_append, ih]
      simp [Nat.succ_mul]

/-- Between palette members, the analyzer's <2 tolerance test is exact
equality (distinct entries differ by 255 in some channel). -/
theorem nearColor_palette_iff (p c : RGB) (hp : p ∈ E6_PALETTE)
    (hc : c ∈ E6_PALETTE) : nearColor p c = true ↔ p = c := by
  simp only [E6_PALETTE, List.mem_cons, List.not_mem_nil, or_false] at hp hc
  rcases hp with h | h | h | h | h | h <;> subst h <;>
    rcases hc with h | h | h | h | h | h <;> subst h <;>
    norm_num [nearColor, colorBlack, colorWhite, colorRed, colorYellow,
      colorGreen, colorBlue, RGB.mk.injEq]

/-- Boolean form of `nearColor_palette_iff`. -/
theorem nearColor_eq_decide (p c : RGB) (hp : p ∈ E6_PALETTE)
    (hc : c ∈ E6_PALETTE) : nearColor p c = decide (p = c) := by
  by_cases h : p = c
  · subst h
    rw [decide_eq_true rfl]
    exact (nearColor_palette_iff p p hp hp).mpr rfl
  · rw [decide_eq_false h]
    cases hn : nearColor p c
    · rfl
    · exact absurd ((nearColor_palette_iff p c hp hc).mp hn) h

/-- A raster whose cells are all palette colors is partitioned exactly by
the six tolerance masks: the six counts sum to the number of cells. -/
theorem countSix (outg : ℕ → ℕ → RGB) :
    ∀ L : List (ℕ × ℕ), (∀ a ∈ L, outg a.1 a.2 ∈ E6_PALETTE) →
    (L.filter (fun yx => nearColor (outg yx.1 yx.2) colorBlack)).length +
    (L.filter (fun yx => nearColor (outg yx.1 yx.2) colorWhite)).length +
    (L.filter (fun yx => nearColor (outg yx.1 yx.2) colorRed)).length +
    (L.filter (fun yx => nearColor (outg yx.1 yx.2) colorYellow)).length +
    (L.filter (fun yx => nearColor (outg yx.1 yx.2) colorGreen)).length +
    (L.filter (fun yx => nearColor (outg yx.1 yx.2) colorBlue)).length =
      L.length := by
  intro L
  induction L with
  | nil => intro _; rfl
  | cons a L ih =>
      intro hmem
      have ha := hmem a (List.mem_cons_self a L)
      have hL := ih (fun b hb => hmem b (List.mem_cons_of_mem a hb))
      simp only [List.filter_cons, List.length_cons]
      simp only [E6_PALETTE, List.mem_cons, List.not_mem_nil, or_false] at ha
      rcases ha with h | h | h | h | h | h <;> rw [h] <;>
        norm_num [nearColor, colorBlack, colorWhite, colorRed, colorYellow,
          colorGreen, colorBlue] at hL ⊢ <;> omega

/-- C8: the analyzer's table has an entry for each of the six palette
colors (names in palette order), its six counts sum exactly to
width × height, and its six percentages sum exactly to 100. -/
theorem c8_distribution_sums (cfg : DitherConfig) (img : ImageQ)
    (hh : 0 < img.height) (hw : 0 < img.width) :
    (analyze_color_distribution cfg img).map Prod.fst = PALETTE_NAMES ∧
    ((analyze_color_distribution cfg img).map (fun e => e.2.1)).sum =
      img.width * img.height ∧
    ((analyze_color_distribution cfg img).map (fun e => e.2.2)).sum = 100 := by
  have hsix := countSix (floyd_steinberg_dither cfg img).1
    (coords img.height img.width) (fun a _ => floyd_out_mem cfg img a.1 a.2)
  rw [coords_length img.height img.width] at hsix
  simp only [analyze_color_distribution, PALETTE_NAMES, E6_PALETTE,
    List.zip_cons_cons, List.zip_nil_right, List.map_cons, List.map_nil,
    List.sum_cons, List.sum_nil, countColor]
  refine ⟨trivial, ?_, ?_⟩
  · linarith [hsix, Nat.mul_comm img.height img.width]
  · have h1 : (0 : ℚ) < (img.height : ℚ) := by exact_mod_cast hh
    have h2 : (0 : ℚ) < (img.width : ℚ) := by exact_mod_cast hw
    have hT : ((img.height : ℚ) * (img.width : ℚ)) ≠ 0 :=
      ne_of_gt (mul_pos h1 h2)
    have hcast := congrArg (fun n : ℕ => (n : ℚ)) hsix
    push_cast at hcast
    field_simp
    linarith [hcast]

/-- C10: the analyzer re-runs the (pure, deterministic) dithering pass
internally, and the counts it reports with its <2 per-channel tolerance are
exactly the per-palette-color counts of pixels bit-equal to each color in
the raster a separate `floyd_steinberg_dither` call returns on the same
image. -/
theorem c10_analyzer_determinism (cfg : DitherConfig) (img : ImageQ) :
    analyze_color_distribution cfg img =
      (PALETTE_NAMES.zip E6_PALETTE).map (fun nc =>
        (nc.1,
         countPixelsEqual (floyd_steinberg_dither cfg img).1
           img.height img.width nc.2,
         (countPixelsEqual (floyd_steinberg_dither cfg img).1
             img.height img.width nc.2 : ℚ) /
           ((img.height : ℚ) * (img.width : ℚ)) * 100)) := by
  unfold analyze_color_distribution
  apply List.map_congr_left
  intro nc hnc
  have hc : nc.2 ∈ E6_PALETTE := by
    simp only [PALETTE_NAMES, E6_PALETTE, List.zip_cons_cons,
      List.zip_nil_right, List.mem_cons, List.not_mem_nil, or_false] at hnc
    rcases hnc with h | h | h | h | h | h <;> rw [h] <;>
      simp [E6_PALETTE]
  have hcount : countColor (floyd_steinberg_dither cfg img).1
      img.height img.width nc.2 =
      countPixelsEqual (floyd_steinberg_dither cfg img).1
        img.height img.width nc.2 := by
    unfold countColor countPixelsEqual
    congr 1
    apply List.filter_congr
    intro a _
    exact nearColor_eq_decide ((floyd_steinberg_dither cfg img).1 a.1 a.2)
      nc.2 (floyd_out_mem cfg img a.1 a.2) hc
  simp only [hcount]

/-- Witness for C8 at the concrete 1×1 mid-gray raster. -/
theorem c8_witness :
    0 < grayImage.height ∧ 0 < grayImage.width ∧
    ((analyze_color_distribution defaultConfig grayImage).map
      (fun e => e.2.2)).sum = 100 :=
  ⟨by decide, by decide,
    (c8_distribution_sums defaultConfig grayImage (by decide) (by decide)).2.2⟩

end FamilyDashboard
